import Mathlib

/-!
Verification of the table-standardization pipeline of `src/streamlit_app.py`
(`standardize_and_clean`, lines 260-304), shallowly embedded in Lean 4.

Modelling conventions, chosen to follow the Python/pandas source:

* A table (`pandas.DataFrame` built from records) is an ordered list of column
  names together with a list of rows; each row is a list of cells aligned with
  the column list.  Records with an absent key materialize as a missing cell.
* A scalar cell is a number (pandas float/int semantics: finite rational,
  `inf`, `-inf`, or `NaN`), a string, a datetime (with `none` playing NaT),
  or missing (`None`/`NaN`).
* Calendar dates are day-granular and encoded injectively and monotonically
  as the integer `y*512 + m*32 + d`; the module-level `LOCAL_TODAY` global of
  the script is an explicit `Int` parameter of every function that reads it.
  Day arithmetic on the encoding is used only for the index-based fallback
  dates, whose only observable uses are comparisons against `localToday`.
* `pd.to_datetime(..., errors="coerce")` is modelled on ISO `Y-M-D` strings;
  other string shapes coerce to NaT.  A finite numeric cell is interpreted by
  pandas as a nanosecond epoch offset, which at day granularity is the epoch
  date for every realistic magnitude; it is modelled as the epoch date.
* `pd.to_numeric(..., errors="coerce")` is modelled on optionally signed
  integer/decimal literals and the textual infinities/NaN accepted by the
  pandas float parser; anything else coerces to NaN.  Exponent notation is
  not modelled; no claim exercises it.
* Fallible pandas steps (`to_datetime` without `errors="coerce"` on the
  synthesized year strings, `dropna(subset=...)` with an absent label,
  `df.columns[-1]` on an empty frame) return `Except.error`.
* `df.sort_values("date")` runs numpy quicksort, whose ordering of rows with
  equal dates is implementation-defined; the model uses an insertion sort and
  no theorem below relies on the tie order it happens to produce.
-/

/-- Pandas numeric scalar at the granularity this pipeline observes: a finite
rational, an infinity, or NaN. -/
inductive PValue where
  | fin (q : Rat)
  | pinf
  | ninf
  | nan
deriving DecidableEq, Repr

/-- One cell of a table: numeric, string, datetime (`none` = NaT), or missing. -/
inductive Cell where
  | num (v : PValue)
  | str (s : String)
  | date (d : Option Int)
  | missing
deriving DecidableEq, Repr

/-- A DataFrame built from records: ordered column names plus rows of cells. -/
structure Table where
  cols : List String
  rows : List (List Cell)
deriving DecidableEq, Repr

/-- Day-granular monotone encoding of a calendar date `y-m-d`. -/
def encDate (y m d : Nat) : Int := (y : Int) * 512 + (m : Int) * 32 + (d : Int)

/-- Encoded date of 1970-01-01, the day numeric cells land on under
`pd.to_datetime` at day granularity. -/
def epochDate : Int := encDate 1970 1 1

/-- Position of a column name in a column list; returns the length when the
name is absent (so that any `List.set` at the result is a no-op). -/
def colIdx : List String → String → Nat
  | [], _ => 0
  | c :: cs, n => if c = n then 0 else colIdx cs n + 1

/-- Cells of column `i`, reading a missing cell for too-short rows. -/
def colCells (T : Table) (i : Nat) : List Cell :=
  T.rows.map (fun r => r.getD i Cell.missing)

/-- Replace every cell of the named column by `f` of it (in-place column
assignment `df[name] = f(df[name])`). -/
def mapColByName (T : Table) (name : String) (f : Cell → Cell) : Table :=
  let i := colIdx T.cols name
  { T with rows := T.rows.map (fun r => r.set i (f (r.getD i Cell.missing))) }

/-- Rename the column at position `i` (`df.rename`, names being unique). -/
def renameAt (T : Table) (i : Nat) (name : String) : Table :=
  { T with cols := T.cols.set i name }

/-- ASCII lowercasing on character codes (`str.lower` restricted to what the
scanned names can contain). -/
def lowerCode (c : Char) : Nat :=
  if 65 ≤ c.toNat ∧ c.toNat ≤ 90 then c.toNat + 32 else c.toNat

/-- Character codes of a string. -/
def codesOf (s : String) : List Nat := s.data.map Char.toNat

/-- Lowercased character codes of a string. -/
def lowerCodesOf (s : String) : List Nat := s.data.map lowerCode

/-- Whether the second code list starts with the first. -/
def startsCodes : List Nat → List Nat → Bool
  | [], _ => true
  | _ :: _, [] => false
  | p :: ps, c :: cs => p == c && startsCodes ps cs

/-- Whether the second code list contains the first as a contiguous run. -/
def hasSubCodes (pat : List Nat) : List Nat → Bool
  | [] => pat.isEmpty
  | c :: cs => startsCodes pat (c :: cs) || hasSubCodes pat cs

/-- Python `pat in s.lower()` substring test (for lowercase ASCII `pat`). -/
def lowerContains (pat s : String) : Bool :=
  hasSubCodes (codesOf pat) (lowerCodesOf s)

/-- Column-name test of line 273 of the source: the lowercased name contains
`date`, `day`, or `time`. -/
def isDateLike (c : String) : Bool :=
  lowerContains "date" c || lowerContains "day" c || lowerContains "time" c

/-- Lines 270-275: when no column is literally named `date`, rename the first
date-like column (if any) to `date`. -/
def renameFirstDateLike (T : Table) : Table :=
  if "date" ∈ T.cols then T
  else
    match T.cols.find? isDateLike with
    | some c => { T with cols := T.cols.map (fun x => if x = c then "date" else x) }
    | none => T

/-- Split a character list at a separator. -/
def splitChar (sep : Char) : List Char → List Char → List (List Char)
  | [], acc => [acc.reverse]
  | c :: cs, acc =>
    if c == sep then acc.reverse :: splitChar sep cs [] else splitChar sep cs (c :: acc)

/-- ASCII digit test. -/
def isDigitChar (c : Char) : Bool := 48 ≤ c.toNat && c.toNat ≤ 57

/-- Value of a digit run. -/
def digitsVal (l : List Char) : Nat :=
  l.foldl (fun a c => a * 10 + (c.toNat - 48)) 0

/-- Parse a nonempty all-digit character run as a natural number. -/
def parseNatChars (l : List Char) : Option Nat :=
  if !l.isEmpty && l.all isDigitChar then some (digitsVal l) else none

/-- ISO `Y-M-D` date parsing, the shape `pd.to_datetime` receives in this
program; anything else is treated as unparseable. -/
def parseDateStr (s : String) : Option Int :=
  match splitChar '-' s.data [] with
  | [ys, ms, ds] =>
    match parseNatChars ys, parseNatChars ms, parseNatChars ds with
    | some y, some m, some d =>
      if 1 ≤ y ∧ y ≤ 9999 ∧ 1 ≤ m ∧ m ≤ 12 ∧ 1 ≤ d ∧ d ≤ 31 then
        some (encDate y m d)
      else none
    | _, _, _ => none
  | _ => none

/-- Cellwise `pd.to_datetime(cell, errors="coerce")`. -/
def toDatetimeCoerce (c : Cell) : Cell :=
  Cell.date (match c with
    | .str s => parseDateStr s
    | .num (.fin _) => some epochDate
    | .num _ => none
    | .date d => d
    | .missing => none)

/-- Python `str(cell)` as produced by `astype(str)` on the `year` column. -/
def pyStr (c : Cell) : String :=
  match c with
  | .str s => s
  | .num (.fin q) => if q.den = 1 then toString q.num else toString q
  | .num .pinf => "inf"
  | .num .ninf => "-inf"
  | .num .nan => "nan"
  | .date (some d) => toString d
  | .date none => "NaT"
  | .missing => "None"

/-- Lines 277-285: parse an existing `date` column with coercion; otherwise
synthesize it from `year` (un-coerced `to_datetime`, so a parse failure
raises) or from the index-based countdown from `LOCAL_TODAY`.  The new
column, when synthesized, is appended after the existing columns. -/
def ensureDate (localToday : Int) (T : Table) : Except String Table :=
  if "date" ∈ T.cols then
    .ok (mapColByName T "date" toDatetimeCoerce)
  else if "year" ∈ T.cols then
    let yi := colIdx T.cols "year"
    let parsed := T.rows.map (fun r => parseDateStr (pyStr (r.getD yi Cell.missing) ++ "-01-01"))
    if parsed.all Option.isSome then
      .ok { cols := T.cols ++ ["date"],
            rows := List.zipWith (fun r o => r ++ [Cell.date o]) T.rows parsed }
    else
      .error "ValueError: to_datetime"
  else
    .ok { cols := T.cols ++ ["date"],
          rows := List.zipWith (fun r c => r ++ [c]) T.rows
            ((List.range T.rows.length).map (fun i => Cell.date (some (localToday - (i : Int))))) }

/-- Numeric cell test (`np.number` dtype element). -/
def isNumCell : Cell → Bool
  | .num _ => true
  | _ => false

/-- Column-level `select_dtypes(include=[np.number])` membership: records
inference gives a numeric dtype exactly when the column has at least one
numeric cell and every cell is numeric or missing (missing widens to float
NaN; an all-missing or any-string column infers `object`). -/
def colIsNumeric (cells : List Cell) : Bool :=
  cells.any isNumCell &&
    cells.all (fun c => match c with | .num _ => true | .missing => true | _ => false)

/-- Lines 287-294: when no `value` column exists, rename the first
numeric-dtype column to `value`, else the last column (`df.columns[-1]`,
an index error on an empty frame). -/
def pickValueCol (T : Table) : Except String Table :=
  if "value" ∈ T.cols then .ok T
  else
    match (List.range T.cols.length).filter (fun i => colIsNumeric (colCells T i)) with
    | i :: _ => .ok (renameAt T i "value")
    | [] =>
      if T.cols.isEmpty then .error "IndexError: columns"
      else .ok (renameAt T (T.cols.length - 1) "value")

/-- Unsigned decimal literal: digits with at most one decimal point and at
least one digit overall. -/
def parseUnsigned (l : List Char) : Option Rat :=
  match splitChar '.' l [] with
  | [a] =>
    if !a.isEmpty && a.all isDigitChar then some ((digitsVal a : Nat) : Rat) else none
  | [a, b] =>
    if (!a.isEmpty || !b.isEmpty) && a.all isDigitChar && b.all isDigitChar then
      some ((digitsVal a : Nat) + (digitsVal b : Nat) / ((10 : Rat) ^ b.length))
    else none
  | _ => none

/-- Pandas float-string parsing as used by `pd.to_numeric`: optional sign,
decimal literal, or textual infinity/NaN; everything else coerces to NaN. -/
def parseNumVal (s : String) : PValue :=
  match s.data with
  | [] => .nan
  | c :: rest =>
    let neg := c == '-'
    let body := if c == '-' || c == '+' then rest else c :: rest
    let bl := body.map lowerCode
    if bl == codesOf "inf" || bl == codesOf "infinity" then (if neg then .ninf else .pinf)
    else if bl == codesOf "nan" then .nan
    else
      match parseUnsigned body with
      | some q => .fin (if neg then -q else q)
      | none => .nan

/-- Cellwise `pd.to_numeric(cell, errors="coerce")`.  A datetime cell becomes
its integer timestamp, NaT becomes NaN. -/
def toNumericCoerce (c : Cell) : Cell :=
  Cell.num (match c with
    | .num v => v
    | .str s => parseNumVal s
    | .date (some d) => .fin d
    | .date none => .nan
    | .missing => .nan)

/-- Line 296: `df["value"] = pd.to_numeric(df["value"], errors="coerce")`. -/
def toNumericAll (T : Table) : Table :=
  mapColByName T "value" toNumericCoerce

/-- NA test used by `dropna`: missing, numeric NaN, or NaT.  Infinities are
not NA. -/
def isNACell : Cell → Bool
  | .missing => true
  | .num .nan => true
  | .date none => true
  | _ => false

/-- Row predicate of `dropna(subset=["date", "value"])`. -/
def naOkRow (di vi : Nat) (r : List Cell) : Bool :=
  !isNACell (r.getD di Cell.missing) && !isNACell (r.getD vi Cell.missing)

/-- Line 298: `dropna(subset=["date", "value"])`; a `KeyError` when either
label is absent from the columns. -/
def dropnaDateValue (T : Table) : Except String Table :=
  if "date" ∈ T.cols ∧ "value" ∈ T.cols then
    .ok { T with rows := T.rows.filter (naOkRow (colIdx T.cols "date") (colIdx T.cols "value")) }
  else
    .error "KeyError: date"

/-- Row predicate of line 300 (`df["date"].dt.date <= LOCAL_TODAY`): keep a
row exactly when its date cell is a real date not after `localToday`. -/
def keepPast (localToday : Int) (di : Nat) (r : List Cell) : Bool :=
  match r.getD di Cell.missing with
  | .date (some d) => d ≤ localToday
  | _ => false

/-- Line 300: remove rows dated strictly after `LOCAL_TODAY`. -/
def filterFuture (localToday : Int) (T : Table) : Table :=
  { T with rows := T.rows.filter (keepPast localToday (colIdx T.cols "date")) }

/-- Accumulator pass behind `drop_duplicates()`: drop each row equal to an
already-seen one (pandas treats NaN cells as equal for this purpose, as does
structural cell equality here). -/
def dedupSeen (seen : List (List Cell)) : List (List Cell) → List (List Cell)
  | [] => []
  | r :: rs => if r ∈ seen then dedupSeen seen rs else r :: dedupSeen (r :: seen) rs

/-- Line 302: `drop_duplicates()` — keep the first occurrence of every
distinct row. -/
def dropDuplicates (l : List (List Cell)) : List (List Cell) :=
  dedupSeen [] l

/-- Sort key of `sort_values("date")`: the encoded date of the row. -/
def dateKeyAt (di : Nat) (r : List Cell) : Int :=
  match r.getD di Cell.missing with
  | .date (some d) => d
  | _ => 0

/-- Ordered insertion by key (ascending). -/
def insertByKey (k : List Cell → Int) (r : List Cell) : List (List Cell) → List (List Cell)
  | [] => [r]
  | x :: xs => if k r ≤ k x then r :: x :: xs else x :: insertByKey k r xs

/-- Insertion sort by key, the model of `sort_values("date")` (see the header
note: the source's quicksort leaves the order of equal dates unspecified, and
no theorem below uses the tie order of this model). -/
def sortByKey (k : List Cell → Int) : List (List Cell) → List (List Cell)
  | [] => []
  | r :: rs => insertByKey k r (sortByKey k rs)

/-- Lines 268-300 of the source: everything before deduplication — date
column resolution, value column resolution, numeric coercion, NA dropping,
and the future filter. -/
def pipelineCore (localToday : Int) (df : Table) : Except String Table :=
  match ensureDate localToday (renameFirstDateLike df) with
  | .error e => .error e
  | .ok a =>
    match pickValueCol a with
    | .error e => .error e
    | .ok b =>
      match dropnaDateValue (toNumericAll b) with
      | .error e => .error e
      | .ok c => .ok (filterFuture localToday c)

/-- Lines 260-304: `standardize_and_clean(df)`.  The module global
`LOCAL_TODAY` (line 46, read from the system clock at import time) is the
explicit first argument. -/
def standardize_and_clean (localToday : Int) (df : Table) : Except String Table :=
  match pipelineCore localToday df with
  | .error e => .error e
  | .ok m =>
    .ok { m with rows := sortByKey (dateKeyAt (colIdx m.cols "date")) (dropDuplicates m.rows) }

/-- Finiteness of a numeric scalar. -/
def isFiniteVal : PValue → Bool
  | .fin _ => true
  | _ => false

/-- Process state visible to the script: the value the module global
`LOCAL_TODAY` received from `datetime.now().date()` when the process imported
the module (line 46 of the source). -/
structure ProcessState where
  importTime : Int
deriving DecidableEq, Repr

/-- A call of `standardize_and_clean` as it happens in a running process: the
caller passes only the table; the today reference is the process state's
import-time clock value. -/
def runAtProcess (s : ProcessState) (df : Table) : Except String Table :=
  standardize_and_clean s.importTime df

/-- Reading back the index just written by `List.set`: the new value inside
bounds, the default outside. -/
theorem getD_set_self (l : List Cell) (i : Nat) (a : Cell) :
    (l.set i a).getD i Cell.missing = if i < l.length then a else Cell.missing := by
  induction l generalizing i with
  | nil => simp
  | cons x xs ih =>
    cases i with
    | zero => simp
    | succ j => simpa [List.getD, Nat.succ_lt_succ_iff] using ih j

/-- The numeric coercion always produces a numeric cell. -/
theorem toNumericCoerce_is_num (c : Cell) : ∃ w, toNumericCoerce c = Cell.num w := by
  cases c with
  | num v => exact ⟨v, rfl⟩
  | str s => exact ⟨parseNumVal s, rfl⟩
  | date d => cases d <;> exact ⟨_, rfl⟩
  | missing => exact ⟨.nan, rfl⟩

/-- Membership in the deduplication pass: kept iff present and not yet seen. -/
theorem mem_dedupSeen (r : List Cell) :
    ∀ (l seen : List (List Cell)), r ∈ dedupSeen seen l ↔ (r ∈ l ∧ r ∉ seen) := by
  intro l
  induction l with
  | nil => intro seen; simp [dedupSeen]
  | cons x xs ih =>
    intro seen
    by_cases hx : x ∈ seen
    · simp only [dedupSeen, if_pos hx, ih, List.mem_cons]
      constructor
      · rintro ⟨h1, h2⟩; exact ⟨Or.inr h1, h2⟩
      · rintro ⟨h1 | h1, h2⟩
        · exact absurd (h1 ▸ hx) h2
        · exact ⟨h1, h2⟩
    · simp only [dedupSeen, if_neg hx, List.mem_cons, ih, List.mem_cons]
      constructor
      · rintro (h1 | ⟨h1, h2⟩)
        · subst h1; exact ⟨Or.inl rfl, hx⟩
        · exact ⟨Or.inr h1, fun hs => h2 (Or.inr hs)⟩
      · rintro ⟨h1 | h1, h2⟩
        · exact Or.inl h1
        · by_cases hrx : r = x
          · exact Or.inl hrx
          · exact Or.inr ⟨h1, fun hs => (by rcases hs with hs | hs; exact hrx hs; exact h2 hs)⟩

/-- The deduplication pass yields a duplicate-free list. -/
theorem nodup_dedupSeen :
    ∀ (l seen : List (List Cell)), (dedupSeen seen l).Nodup := by
  intro l
  induction l with
  | nil => intro seen; simp [dedupSeen]
  | cons x xs ih =>
    intro seen
    by_cases hx : x ∈ seen
    · simpa [dedupSeen, if_pos hx] using ih seen
    · have heq : dedupSeen seen (x :: xs) = x :: dedupSeen (x :: seen) xs := by
        simp [dedupSeen, if_neg hx]
      rw [heq]
      refine List.nodup_cons.mpr ⟨?_, ih (x :: seen)⟩
      intro hmem
      exact ((mem_dedupSeen x xs (x :: seen)).mp hmem).2 (List.mem_cons_self x seen)

/-- The deduplication pass is a sublist of its input (rows are only removed,
never reordered or changed). -/
theorem sublist_dedupSeen :
    ∀ (l seen : List (List Cell)), List.Sublist (dedupSeen seen l) l := by
  intro l
  induction l with
  | nil => intro seen; simp [dedupSeen]
  | cons x xs ih =>
    intro seen
    by_cases hx : x ∈ seen
    · simpa [dedupSeen, if_pos hx] using (ih seen).cons x
    · simpa [dedupSeen, if_neg hx] using (ih (x :: seen)).cons₂ x

/-- Ordered insertion is a permutation of consing. -/
theorem perm_insertByKey (k : List Cell → Int) (r : List Cell) :
    ∀ l : List (List Cell), (insertByKey k r l).Perm (r :: l) := by
  intro l
  induction l with
  | nil => simp [insertByKey]
  | cons x xs ih =>
    by_cases h : k r ≤ k x
    · simp [insertByKey, if_pos h]
    · simpa [insertByKey, if_neg h] using (ih.cons x).trans (List.Perm.swap r x xs)

/-- The model sort is a permutation of its input. -/
theorem perm_sortByKey (k : List Cell → Int) :
    ∀ l : List (List Cell), (sortByKey k l).Perm l := by
  intro l
  induction l with
  | nil => simp [sortByKey]
  | cons x xs ih =>
    exact (perm_insertByKey k x (sortByKey k xs)).trans (ih.cons x)

/-- Structure of a successful `standardize_and_clean` call: a successful core
pipeline whose rows are then deduplicated and sorted, columns unchanged. -/
theorem ok_pipeline (t : Int) (T out : Table)
    (h : standardize_and_clean t T = .ok out) :
    ∃ m : Table, pipelineCore t T = .ok m ∧ out.cols = m.cols ∧
      out.rows = sortByKey (dateKeyAt (colIdx m.cols "date")) (dropDuplicates m.rows) := by
  unfold standardize_and_clean at h
  cases hp : pipelineCore t T with
  | error e => rw [hp] at h; exact absurd h (by simp)
  | ok m =>
    rw [hp] at h
    refine ⟨m, rfl, ?_, ?_⟩
    · cases h; rfl
    · cases h; rfl

/-- Structure of a successful core pipeline: the date and value stages went
through, both labels are present at the `dropna` (else it would have raised
`KeyError`), and the final rows are the NA-filter of the coerced rows further
filtered by the future-date predicate. -/
theorem ok_core (t : Int) (T m : Table) (h : pipelineCore t T = .ok m) :
    ∃ a b : Table, ensureDate t (renameFirstDateLike T) = .ok a ∧
      pickValueCol a = .ok b ∧
      "date" ∈ b.cols ∧ "value" ∈ b.cols ∧
      m.cols = b.cols ∧
      m.rows = ((toNumericAll b).rows.filter
          (naOkRow (colIdx b.cols "date") (colIdx b.cols "value"))).filter
        (keepPast t (colIdx b.cols "date")) := by
  unfold pipelineCore at h
  cases h1 : ensureDate t (renameFirstDateLike T) with
  | error e => rw [h1] at h; exact absurd h (by simp)
  | ok a =>
    rw [h1] at h
    dsimp only at h
    cases h2 : pickValueCol a with
    | error e => rw [h2] at h; exact absurd h (by simp)
    | ok b =>
      rw [h2] at h
      dsimp only at h
      cases h3 : dropnaDateValue (toNumericAll b) with
      | error e => rw [h3] at h; exact absurd h (by simp)
      | ok c =>
        rw [h3] at h
        dsimp only at h
        have hcols : (toNumericAll b).cols = b.cols := rfl
        unfold dropnaDateValue at h3
        by_cases hdv : "date" ∈ (toNumericAll b).cols ∧ "value" ∈ (toNumericAll b).cols
        · rw [if_pos hdv] at h3
          cases h3
          cases h
          refine ⟨a, b, rfl, h2, hcols ▸ hdv.1, hcols ▸ hdv.2, rfl, ?_⟩
          simp [filterFuture, hcols]
        · rw [if_neg hdv] at h3
          exact absurd h3 (by simp)

/-- Example input for the C3 witness: one valid 2020 row, today in 2021. -/
def exT3 : Table := ⟨["date", "value"], [[Cell.str "2020-01-01", Cell.num (.fin 1)]]⟩

/-- Output of `standardize_and_clean` on `exT3`. -/
def exOut3 : Table :=
  ⟨["date", "value"], [[Cell.date (some (encDate 2020 1 1)), Cell.num (.fin 1)]]⟩

/-- C1: the totality claim fails, and the graceful-degradation intent of the
source's own fallback comments makes this a code bug: on an empty table, and
on any table with no date-like, `year`, or numeric column, the synthesized
`date` column is appended last and the last-column value fallback renames it
to `value`, so `dropna(subset=["date", "value"])` raises `KeyError` instead
of returning (an empty) result. -/
theorem standardize_total_violation :
    standardize_and_clean (encDate 2024 6 1) ⟨[], []⟩ = .error "KeyError: date" ∧
    standardize_and_clean (encDate 2024 6 1) ⟨["name"], [[Cell.str "a"]]⟩ =
      .error "KeyError: date" := by
  exact ⟨rfl, rfl⟩

/-- C3: no-future invariant.  Every row of a successful output has its date
cell bounded by `localToday`; and the future filter itself never removes a
row whose date is `localToday` or earlier (in particular rows dated exactly
today survive that filter). -/
theorem standardize_no_future (t : Int) (T out : Table)
    (h : standardize_and_clean t T = .ok out) :
    (∀ r ∈ out.rows, ∀ d : Int,
        r.getD (colIdx out.cols "date") Cell.missing = Cell.date (some d) → d ≤ t) ∧
    (∀ (l : List (List Cell)) (r : List Cell) (di : Nat) (d : Int),
        r ∈ l → r.getD di Cell.missing = Cell.date (some d) → d ≤ t →
          r ∈ l.filter (keepPast t di)) := by
  obtain ⟨m, hm, hcols, hrows⟩ := ok_pipeline t T out h
  obtain ⟨a, b, h1, h2, hd, hv, hmc, hmr⟩ := ok_core t T m hm
  constructor
  · intro r hr d hgd
    rw [hrows] at hr
    have hr2 : r ∈ dropDuplicates m.rows := ((perm_sortByKey _ _).mem_iff).mp hr
    have hr3 : r ∈ m.rows := ((mem_dedupSeen r m.rows []).mp hr2).1
    rw [hmr] at hr3
    have hkeep := (List.mem_filter.mp hr3).2
    rw [hcols, hmc] at hgd
    unfold keepPast at hkeep
    rw [hgd] at hkeep
    simpa using hkeep
  · intro l r di d hrl hgd hle
    refine List.mem_filter.mpr ⟨hrl, ?_⟩
    unfold keepPast
    rw [hgd]
    simpa using hle

/-- C3 witness: the invariant applied to the concrete output row of a run
with a 2020 row and a 2021 today. -/
theorem standardize_no_future_witness :
    encDate 2020 1 1 ≤ encDate 2021 1 1 :=
  (standardize_no_future (encDate 2021 1 1) exT3 exOut3 (by rfl)).1
    [Cell.date (some (encDate 2020 1 1)), Cell.num (.fin 1)]
    (by simp [exOut3]) (encDate 2020 1 1) (by rfl)

/-- C8 counterexample: a textual infinity in the `value` cell survives the
whole pipeline — `to_numeric` parses it to `inf` and `dropna` only removes
NaN — so the output row carries a non-finite value, contradicting the claim
that no output row carries an infinity. -/
theorem value_infinity_passes_through :
    standardize_and_clean (encDate 2021 1 1)
        ⟨["date", "value"], [[Cell.str "2020-01-01", Cell.str "inf"]]⟩ =
      .ok ⟨["date", "value"], [[Cell.date (some (encDate 2020 1 1)), Cell.num PValue.pinf]]⟩ ∧
    isFiniteVal PValue.pinf = false := by
  exact ⟨rfl, rfl⟩

/-- C8 as amended: every row of a successful output has a real (non-NaT)
date cell not after today and a numeric, non-NaN value cell — but the value
need not be finite, since only NaN counts as missing. -/
theorem standardize_row_content (t : Int) (T out : Table)
    (h : standardize_and_clean t T = .ok out) :
    ∀ r ∈ out.rows,
      (∃ d : Int, r.getD (colIdx out.cols "date") Cell.missing = Cell.date (some d) ∧ d ≤ t) ∧
      (∃ w : PValue, r.getD (colIdx out.cols "value") Cell.missing = Cell.num w ∧
        w ≠ PValue.nan) := by
  obtain ⟨m, hm, hcols, hrows⟩ := ok_pipeline t T out h
  obtain ⟨a, b, h1, h2, hd, hv, hmc, hmr⟩ := ok_core t T m hm
  intro r hr
  rw [hrows] at hr
  have hr2 : r ∈ dropDuplicates m.rows := ((perm_sortByKey _ _).mem_iff).mp hr
  have hr3 : r ∈ m.rows := ((mem_dedupSeen r m.rows []).mp hr2).1
  rw [hmr] at hr3
  have hkeep := (List.mem_filter.mp hr3).2
  have hr4 := (List.mem_filter.mp hr3).1
  have hna := (List.mem_filter.mp hr4).2
  have hr5 := (List.mem_filter.mp hr4).1
  constructor
  · rw [hcols, hmc]
    unfold keepPast at hkeep
    rcases hcell : r.getD (colIdx b.cols "date") Cell.missing with v | s | od | _ <;>
      rw [hcell] at hkeep
    · simp at hkeep
    · simp at hkeep
    · cases od with
      | none => simp at hkeep
      | some d => exact ⟨d, rfl, by simpa using hkeep⟩
    · simp at hkeep
  · rw [hcols, hmc]
    have hvna : isNACell (r.getD (colIdx b.cols "value") Cell.missing) = false := by
      unfold naOkRow at hna
      rw [Bool.and_eq_true] at hna
      simpa using hna.2
    simp only [toNumericAll, mapColByName, List.mem_map] at hr5
    obtain ⟨r0, hr0, hr0eq⟩ := hr5
    by_cases hlt : colIdx b.cols "value" < r0.length
    · have hcell : r.getD (colIdx b.cols "value") Cell.missing =
          toNumericCoerce (r0.getD (colIdx b.cols "value") Cell.missing) := by
        rw [← hr0eq, getD_set_self, if_pos hlt]
      obtain ⟨w, hw⟩ := toNumericCoerce_is_num (r0.getD (colIdx b.cols "value") Cell.missing)
      refine ⟨w, by rw [hcell, hw], ?_⟩
      intro hwnan
      rw [hcell, hw, hwnan] at hvna
      simp [isNACell] at hvna
    · have hcell : r.getD (colIdx b.cols "value") Cell.missing = Cell.missing := by
        rw [← hr0eq, getD_set_self, if_neg hlt]
      rw [hcell] at hvna
      simp [isNACell] at hvna

/-- Example input for the C8 witness. -/
def exT8 : Table := ⟨["date", "value"], [[Cell.str "2019-05-05", Cell.num (.fin 2)]]⟩

/-- Output of `standardize_and_clean` on `exT8`. -/
def exOut8 : Table :=
  ⟨["date", "value"], [[Cell.date (some (encDate 2019 5 5)), Cell.num (.fin 2)]]⟩

/-- C8 witness: the amended row-content invariant at the concrete output row
of a run. -/
theorem standardize_row_content_witness :
    (∃ d : Int, ([Cell.date (some (encDate 2019 5 5)), Cell.num (.fin 2)] : List Cell).getD
        (colIdx exOut8.cols "date") Cell.missing = Cell.date (some d) ∧
      d ≤ encDate 2021 1 1) ∧
    (∃ w : PValue, ([Cell.date (some (encDate 2019 5 5)), Cell.num (.fin 2)] : List Cell).getD
        (colIdx exOut8.cols "value") Cell.missing = Cell.num w ∧ w ≠ PValue.nan) :=
  standardize_row_content (encDate 2021 1 1) exT8 exOut8 (by rfl)
    [Cell.date (some (encDate 2019 5 5)), Cell.num (.fin 2)] (by simp [exOut8])

/-- Decidable equality of `Except` values (componentwise). -/
instance {e a : Type} [DecidableEq e] [DecidableEq a] : DecidableEq (Except e a) :=
  fun x y =>
    match x, y with
    | .error e1, .error e2 =>
      if h : e1 = e2 then .isTrue (by rw [h]) else .isFalse (fun hc => h (Except.error.inj hc))
    | .ok a1, .ok a2 =>
      if h : a1 = a2 then .isTrue (by rw [h]) else .isFalse (fun hc => h (Except.ok.inj hc))
    | .error _, .ok _ => .isFalse (fun hc => Except.noConfusion hc)
    | .ok _, .error _ => .isFalse (fun hc => Except.noConfusion hc)

/-- C2 counterexample: the caller controls only the table argument; the today
reference is the ambient `LOCAL_TODAY`, fixed by the clock at import time.
Two calls with the identical table, in process states whose import-time
clock differed, return different results — so the result is not a function
of the caller-visible inputs, refuting the claim that the today boundary is
caller-supplied and that no ambient clock state is read. -/
theorem standardize_depends_on_ambient_today :
    runAtProcess ⟨encDate 2020 6 1⟩
        ⟨["date", "value"], [[Cell.str "2020-06-01", Cell.num (.fin 1)]]⟩ ≠
      runAtProcess ⟨encDate 2019 1 1⟩
        ⟨["date", "value"], [[Cell.str "2020-06-01", Cell.num (.fin 1)]]⟩ := by
  decide

/-- C2 as amended: `standardize_and_clean` is deterministic in the pair
(import-time `LOCAL_TODAY`, table): any two process states with the same
import-time clock value map equal tables to equal results.  (Equality of the
table alone is not enough; see the counterexample above.) -/
theorem standardize_process_determinism :
    ∀ (s1 s2 : ProcessState) (df : Table),
      s1.importTime = s2.importTime → runAtProcess s1 df = runAtProcess s2 df := by
  intro s1 s2 df h
  cases s1
  cases s2
  cases h
  rfl

/-- C2 witness: determinism at a concrete pair of equal-clock process
states. -/
theorem standardize_process_determinism_witness :
    runAtProcess ⟨encDate 2024 1 1⟩ exT3 = runAtProcess ⟨encDate 2024 1 1⟩ exT3 :=
  standardize_process_determinism ⟨encDate 2024 1 1⟩ ⟨encDate 2024 1 1⟩ exT3 rfl

/-- C4 counterexample: a column of numeric strings (`temp`, cells `"5"`) that
is not last is not selected by the value-resolution step — `select_dtypes`
looks at dtypes, and a string column has dtype `object` however numeric its
text is.  The last column `name` is coerced instead, its cell `"x"` becomes
NaN, and the row is dropped: the output is empty rather than the row with
`value = 5` the claim predicts. -/
theorem value_pick_numeric_string_not_selected :
    standardize_and_clean (encDate 2021 1 1)
        ⟨["date", "temp", "name"], [[Cell.str "2020-01-01", Cell.str "5", Cell.str "x"]]⟩ =
      .ok ⟨["date", "temp", "value"], []⟩ ∧
    standardize_and_clean (encDate 2021 1 1)
        ⟨["date", "temp", "name"], [[Cell.str "2020-01-01", Cell.str "5", Cell.str "x"]]⟩ ≠
      .ok ⟨["date", "value", "name"],
        [[Cell.date (some (encDate 2020 1 1)), Cell.num (.fin 5), Cell.str "x"]]⟩ := by
  exact ⟨rfl, by decide⟩

/-- Filtering a range by a predicate that is false below `j` and true at `j`
puts `j` first. -/
theorem filter_range_first (n j : Nat) (p : Nat → Bool) (hj : j < n) (hpj : p j = true)
    (hlt : ∀ i < j, p i = false) :
    ∃ rest, (List.range n).filter p = j :: rest := by
  obtain ⟨k, rfl⟩ : ∃ k, n = (j + 1) + k := ⟨n - (j + 1), by omega⟩
  have h1 : (List.range j).filter p = [] := by
    rw [List.filter_eq_nil_iff]
    intro a ha
    rw [List.mem_range] at ha
    simp [hlt a ha]
  have h2 : (List.range (j + 1)).filter p = [j] := by
    rw [List.range_succ, List.filter_append, h1]
    simp [hpj]
  refine ⟨((List.range k).map ((j + 1) + ·)).filter p, ?_⟩
  rw [List.range_add, List.filter_append, h2]
  rfl

/-- C4 as amended: step 2 of value resolution selects the first column whose
inferred dtype is numeric — all cells actual numbers or missing, at least one
number — never a column of numeric strings: an all-string column is not
numeric-dtype; when some column is numeric-dtype, the first such column (in
original column order) is the one renamed to `value`; and when no column has
numeric dtype, the last column in the original ordering is renamed to `value`
regardless of content. -/
theorem value_pick_dtype_amended :
    (∀ cells : List Cell, (∀ x ∈ cells, ∃ s, x = Cell.str s) → colIsNumeric cells = false) ∧
    (∀ (m : Table) (j : Nat), "value" ∉ m.cols →
      j < m.cols.length →
      colIsNumeric (colCells m j) = true →
      (∀ i < j, colIsNumeric (colCells m i) = false) →
      pickValueCol m = .ok (renameAt m j "value")) ∧
    (∀ m : Table, "value" ∉ m.cols →
      (List.range m.cols.length).filter (fun i => colIsNumeric (colCells m i)) = [] →
      m.cols ≠ [] →
      pickValueCol m = .ok (renameAt m (m.cols.length - 1) "value")) := by
  refine ⟨?_, ?_, ?_⟩
  · intro cells hall
    have hany : cells.any isNumCell = false := by
      rw [List.any_eq_false]
      intro x hx
      obtain ⟨s, rfl⟩ := hall x hx
      simp [isNumCell]
    simp [colIsNumeric, hany]
  · intro m j hv hj hpj hlt
    obtain ⟨rest, hr⟩ :=
      filter_range_first m.cols.length j (fun i => colIsNumeric (colCells m i)) hj hpj hlt
    unfold pickValueCol
    rw [if_neg hv, hr]
  · intro m hv hfilt hne
    unfold pickValueCol
    rw [if_neg hv, hfilt]
    have hemp : m.cols.isEmpty = false := by
      cases hc : m.cols with
      | nil => exact absurd hc hne
      | cons c cs => rfl
    simp [hemp]

/-- Input of the C4 witness: the post-date-stage table with a numeric-string
column that is not last. -/
def exM4 : Table :=
  ⟨["date", "temp", "name"], [[Cell.date (some (encDate 2020 1 1)), Cell.str "5", Cell.str "x"]]⟩

/-- Second input of the C4 witness: a table whose third column is the first
(and only) numeric-dtype one, with a further column after it. -/
def exM4b : Table :=
  ⟨["date", "tag", "qty", "note"],
   [[Cell.date (some (encDate 2020 1 1)), Cell.str "a", Cell.num (.fin 7), Cell.str "z"]]⟩

/-- C4 witness: the amended resolution rule at concrete inputs — a
numeric-string column has non-numeric dtype; the first numeric-dtype column
(`qty`, position 2, not last) is the one renamed to `value`; and with no
numeric-dtype column at all the last column is the one renamed. -/
theorem value_pick_dtype_amended_witness :
    colIsNumeric [Cell.str "5"] = false ∧
    pickValueCol exM4b = .ok (renameAt exM4b 2 "value") ∧
    pickValueCol exM4 = .ok (renameAt exM4 2 "value") :=
  ⟨value_pick_dtype_amended.1 [Cell.str "5"]
      (fun x hx => ⟨"5", by simpa using hx⟩),
   value_pick_dtype_amended.2.1 exM4b 2 (by decide) (by decide) (by rfl) (by decide),
   value_pick_dtype_amended.2.2 exM4 (by decide) (by rfl) (by decide)⟩

/-- C5 counterexample: on the exact scenario input the Korean column name
`날짜` contains none of `date`/`day`/`time`, so no date column is recognized;
the index fallback appends a `date` column last, the value fallback renames
that same column to `value`, and the call raises `KeyError` instead of
returning the claimed rows. -/
theorem scenario1_korean_column_fails :
    standardize_and_clean (encDate 2021 1 1)
        ⟨["날짜", "온도"],
         [[Cell.str "2020-01-01", Cell.str "5"], [Cell.str "2019-01-01", Cell.str "3"]]⟩ =
      .error "KeyError: date" := by
  rfl

/-- C5 as amended: with the date column actually named `date` (any name
containing `date`/`day`/`time` behaves the same), the scenario holds exactly:
the numeric-string temperature column ends up as `value` (as the last
column), rows are filtered against today and sorted ascending by date, and
the output is `[{date: 2019-01-01, value: 3}, {date: 2020-01-01, value: 5}]`. -/
theorem scenario1_amended :
    standardize_and_clean (encDate 2021 1 1)
        ⟨["date", "온도"],
         [[Cell.str "2020-01-01", Cell.str "5"], [Cell.str "2019-01-01", Cell.str "3"]]⟩ =
      .ok ⟨["date", "value"],
        [[Cell.date (some (encDate 2019 1 1)), Cell.num (.fin 3)],
         [Cell.date (some (encDate 2020 1 1)), Cell.num (.fin 5)]]⟩ := by
  rfl

/-- C9: exact-duplicate removal.  A successful output is duplicate-free; row
multiplicity aside, it carries exactly the rows surviving the core pipeline
(so rows agreeing on `date` and `value` but differing in any other retained
column all remain); and the deduplicated list is a sublist of the pre-dedup
rows — each distinct row value survives at the position of its earliest
occurrence, later equal occurrences being the ones removed. -/
theorem standardize_dedup_exact (t : Int) (T out : Table)
    (h : standardize_and_clean t T = .ok out) :
    ∃ m : Table, pipelineCore t T = .ok m ∧
      out.rows.Nodup ∧
      (∀ r : List Cell, r ∈ out.rows ↔ r ∈ m.rows) ∧
      out.rows.Perm (dropDuplicates m.rows) ∧
      List.Sublist (dropDuplicates m.rows) m.rows := by
  obtain ⟨m, hm, hcols, hrows⟩ := ok_pipeline t T out h
  have hperm : out.rows.Perm (dropDuplicates m.rows) := by
    rw [hrows]; exact perm_sortByKey _ _
  refine ⟨m, hm, ?_, ?_, hperm, sublist_dedupSeen m.rows []⟩
  · exact (hperm.symm).nodup (nodup_dedupSeen m.rows [])
  · intro r
    rw [hperm.mem_iff]
    constructor
    · intro hr; exact ((mem_dedupSeen r m.rows []).mp hr).1
    · intro hr; exact (mem_dedupSeen r m.rows []).mpr ⟨hr, by simp⟩

/-- Example input for the C9 witness: an exact duplicate pair plus a row
agreeing on date and value but differing in the retained `tag` column. -/
def exT9 : Table :=
  ⟨["date", "value", "tag"],
   [[Cell.str "2020-01-01", Cell.num (.fin 1), Cell.str "a"],
    [Cell.str "2020-01-01", Cell.num (.fin 1), Cell.str "a"],
    [Cell.str "2020-01-01", Cell.num (.fin 1), Cell.str "b"]]⟩

/-- Output of `standardize_and_clean` on `exT9`: the exact duplicate is gone,
the partially-equal row is kept. -/
def exOut9 : Table :=
  ⟨["date", "value", "tag"],
   [[Cell.date (some (encDate 2020 1 1)), Cell.num (.fin 1), Cell.str "a"],
    [Cell.date (some (encDate 2020 1 1)), Cell.num (.fin 1), Cell.str "b"]]⟩

/-- C9 witness: the deduplication properties on a concrete run. -/
theorem standardize_dedup_exact_witness :
    ∃ m : Table, pipelineCore (encDate 2021 1 1) exT9 = .ok m ∧
      exOut9.rows.Nodup ∧
      (∀ r : List Cell, r ∈ exOut9.rows ↔ r ∈ m.rows) ∧
      exOut9.rows.Perm (dropDuplicates m.rows) ∧
      List.Sublist (dropDuplicates m.rows) m.rows :=
  standardize_dedup_exact (encDate 2021 1 1) exT9 exOut9 (by rfl)

/-- Renaming one column position keeps the column count and introduces only
the new name. -/
theorem cols_renameAt (a : Table) (i : Nat) (n : String) :
    (renameAt a i n).cols.length = a.cols.length ∧
    ∀ c ∈ (renameAt a i n).cols, c = n ∨ c ∈ a.cols := by
  constructor
  · exact List.length_set a.cols i n
  · intro c hc
    rcases List.mem_or_eq_of_mem_set hc with h1 | h1
    · exact Or.inr h1
    · exact Or.inl h1

/-- The date-like rename keeps the column count and introduces only the name
`date`. -/
theorem cols_renameFirstDateLike (T : Table) :
    (renameFirstDateLike T).cols.length = T.cols.length ∧
    ∀ c ∈ (renameFirstDateLike T).cols, c = "date" ∨ c ∈ T.cols := by
  unfold renameFirstDateLike
  by_cases h : "date" ∈ T.cols
  · rw [if_pos h]
    exact ⟨rfl, fun c hc => Or.inr hc⟩
  · rw [if_neg h]
    cases hf : T.cols.find? isDateLike with
    | none => exact ⟨rfl, fun c hc => Or.inr hc⟩
    | some c0 =>
      refine ⟨by simp, ?_⟩
      intro c hc
      simp only [List.mem_map] at hc
      obtain ⟨x, hx, hxc⟩ := hc
      by_cases hxc0 : x = c0
      · rw [← hxc, if_pos hxc0]
        exact Or.inl rfl
      · rw [← hxc, if_neg hxc0]
        exact Or.inr hx

/-- The date stage either leaves the columns unchanged or appends `date`. -/
theorem cols_ensureDate (t : Int) (X a : Table) (h : ensureDate t X = .ok a) :
    a.cols = X.cols ∨ a.cols = X.cols ++ ["date"] := by
  unfold ensureDate at h
  split at h
  · cases h; exact Or.inl rfl
  · split at h
    · dsimp only at h
      split at h
      · cases h; exact Or.inr rfl
      · exact absurd h (by simp)
    · cases h; exact Or.inr rfl

/-- The value stage keeps the column count and introduces only the name
`value`. -/
theorem cols_pickValueCol (a b : Table) (h : pickValueCol a = .ok b) :
    b.cols.length = a.cols.length ∧ ∀ c ∈ b.cols, c = "value" ∨ c ∈ a.cols := by
  unfold pickValueCol at h
  split at h
  · cases h; exact ⟨rfl, fun c hc => Or.inr hc⟩
  · split at h
    · cases h; exact cols_renameAt a _ "value"
    · split at h
      · exact absurd h (by simp)
      · cases h; exact cols_renameAt a _ "value"

/-- C10 as amended: a successful output always has `date` and `value`
columns, but the table is not pruned to a `{date, value, group}` shape:
every output column is `date`, `value`, or an original input column, and the
column count is the input's (one rename) or one more (the synthesized
`date`) — all other input columns survive. -/
theorem standardize_cols_amended (t : Int) (T out : Table)
    (h : standardize_and_clean t T = .ok out) :
    "date" ∈ out.cols ∧ "value" ∈ out.cols ∧
    (∀ c ∈ out.cols, c = "date" ∨ c = "value" ∨ c ∈ T.cols) ∧
    (out.cols.length = T.cols.length ∨ out.cols.length = T.cols.length + 1) := by
  obtain ⟨m, hm, hcols, hrows⟩ := ok_pipeline t T out h
  obtain ⟨a, b, h1, h2, hd, hv, hmc, hmr⟩ := ok_core t T m hm
  have hoc : out.cols = b.cols := by rw [hcols, hmc]
  obtain ⟨hlen1, hmem1⟩ := cols_renameFirstDateLike T
  have h1c := cols_ensureDate t (renameFirstDateLike T) a h1
  obtain ⟨hlen3, hmem3⟩ := cols_pickValueCol a b h2
  refine ⟨hoc ▸ hd, hoc ▸ hv, ?_, ?_⟩
  · intro c hc
    rw [hoc] at hc
    rcases hmem3 c hc with hcv | hca
    · exact Or.inr (Or.inl hcv)
    · rcases h1c with he | he
      · rw [he] at hca
        rcases hmem1 c hca with hcd | hct
        · exact Or.inl hcd
        · exact Or.inr (Or.inr hct)
      · rw [he] at hca
        rcases List.mem_append.mp hca with hca2 | hca2
        · rcases hmem1 c hca2 with hcd | hct
          · exact Or.inl hcd
          · exact Or.inr (Or.inr hct)
        · simp only [List.mem_singleton] at hca2
          exact Or.inl hca2
  · rw [hoc, hlen3]
    rcases h1c with he | he
    · rw [he, hlen1]
      exact Or.inl rfl
    · rw [he, List.length_append, hlen1]
      exact Or.inr rfl

/-- C10 counterexample: an input column named `extra` — outside the claimed
`{date, value, group}` shape — survives into the output row of a successful
run, so output rows do not consist of exactly `date`, `value`, and an
optional `group`. -/
theorem extra_columns_survive :
    standardize_and_clean (encDate 2021 1 1)
        ⟨["date", "value", "extra"],
         [[Cell.str "2020-01-01", Cell.num (.fin 1), Cell.str "x"]]⟩ =
      .ok ⟨["date", "value", "extra"],
        [[Cell.date (some (encDate 2020 1 1)), Cell.num (.fin 1), Cell.str "x"]]⟩ ∧
    "extra" ∉ (["date", "value", "group"] : List String) := by
  exact ⟨rfl, by decide⟩

/-- Example input for the C10 witness. -/
def exT10 : Table :=
  ⟨["date", "value", "season"], [[Cell.str "2018-03-03", Cell.num (.fin 4), Cell.str "spring"]]⟩

/-- Output of `standardize_and_clean` on `exT10`. -/
def exOut10 : Table :=
  ⟨["date", "value", "season"],
   [[Cell.date (some (encDate 2018 3 3)), Cell.num (.fin 4), Cell.str "spring"]]⟩

/-- C10 witness: the amended column-shape facts on a concrete run. -/
theorem standardize_cols_amended_witness :
    "date" ∈ exOut10.cols ∧ "value" ∈ exOut10.cols ∧
    (∀ c ∈ exOut10.cols, c = "date" ∨ c = "value" ∨ c ∈ exT10.cols) ∧
    (exOut10.cols.length = exT10.cols.length ∨
      exOut10.cols.length = exT10.cols.length + 1) :=
  standardize_cols_amended (encDate 2021 1 1) exT10 exOut10 (by rfl)
